import Mathlib

/-!
Verification development for the Virtual Port Manager core
(`src/core/command_manager.py`, `src/core/models.py`, `src/core/validators.py`,
`src/utils/constants.py`).

Python strings are embedded as `List Char`; Python `dict` as an ordered
association list with last-write-wins insertion; Python exceptions as
`Except`.  Fields of the source records whose values depend on the wall
clock (`execution_time`, a float) are not modelled: no claim mentions them.
-/

namespace VPM

/-- A Python string, embedded as its list of characters. -/
abbrev Str := List Char

/-- Shorthand turning a Lean string literal into the embedded form. -/
def lit (s : String) : Str := s.data

/-! ### Python string primitives -/

/-- The ASCII whitespace characters recognised by Python `str.strip()` /
`str.split()` (space, tab, newline, carriage return, vertical tab, form feed). -/
def isPySpace (c : Char) : Bool :=
  c = ' ' ∨ c = '\t' ∨ c = '\n' ∨ c = '\r' ∨ c = Char.ofNat 11 ∨ c = Char.ofNat 12

/-- Python `s.strip()`: remove leading and trailing whitespace. -/
def pstrip (s : Str) : Str :=
  ((s.dropWhile isPySpace).reverse.dropWhile isPySpace).reverse

/-- Worker loop for `splitWs`; `tok` holds the current token reversed. -/
def splitWsAux : Str → Str → List Str
  | tok, [] => if tok = [] then [] else [tok.reverse]
  | tok, c :: cs =>
    if isPySpace c then
      if tok = [] then splitWsAux [] cs else tok.reverse :: splitWsAux [] cs
    else splitWsAux (c :: tok) cs

/-- Python `s.split()` with no separator: split on whitespace runs,
producing no empty tokens. -/
def splitWs (s : Str) : List Str := splitWsAux [] s

/-- Worker loop for `splitOnChar`; `tok` holds the current token reversed. -/
def splitOnCharAux (sep : Char) : Str → Str → List Str
  | tok, [] => [tok.reverse]
  | tok, c :: cs =>
    if c = sep then tok.reverse :: splitOnCharAux sep [] cs
    else splitOnCharAux sep (c :: tok) cs

/-- Python `s.split(sep)` for a one-character separator: keeps empty tokens,
and the split of the empty string is `[""]`. -/
def splitOnChar (sep : Char) (s : Str) : List Str := splitOnCharAux sep [] s

/-- Python `s.split(sep, 1)` when `sep in s`: the part before the first
occurrence of `sep` and the part after it; `none` when `sep` is absent. -/
def splitFirst (sep : Char) : Str → Option (Str × Str)
  | [] => none
  | c :: cs =>
    if c = sep then some ([], cs)
    else (splitFirst sep cs).map (fun p => (c :: p.1, p.2))

/-- Python `sep.join(tokens)` for a one-character separator. -/
def joinSep (sep : Char) : List Str → Str
  | [] => []
  | [t] => t
  | t :: ts => t ++ sep :: joinSep sep ts

/-- Python `needle in hay` for strings: substring containment. -/
def containsSub (needle : Str) : Str → Bool
  | [] => needle.isEmpty
  | c :: cs => needle.isPrefixOf (c :: cs) || containsSub needle cs

/-- ASCII lowering of one character, as Python `str.lower()` does for the
ASCII range (the only range the source compares against). -/
def pyLowerChar (c : Char) : Char :=
  if 'A' ≤ c ∧ c ≤ 'Z' then Char.ofNat (c.toNat + 32) else c

/-- Python `s.lower()` restricted to ASCII case folding. -/
def pyLower (s : Str) : Str := s.map pyLowerChar

/-! ### Python `int()` on a string -/

/-- ASCII decimal digit test. -/
def isDigitC (c : Char) : Bool := '0' ≤ c ∧ c ≤ '9'

/-- Numeric value of an ASCII digit. -/
def digitVal (c : Char) : Nat := c.toNat - '0'.toNat

/-- Consume the remainder of a digit sequence in Python `int()` syntax:
digits, with single underscores allowed between digits only. -/
def pyDigRun (acc : Nat) : Str → Option Nat
  | [] => some acc
  | c :: cs =>
    if isDigitC c then pyDigRun (10 * acc + digitVal c) cs
    else if c = '_' then
      match cs with
      | [] => none
      | c' :: cs' => if isDigitC c' then pyDigRun (10 * acc + digitVal c') cs' else none
    else none

/-- An unsigned Python integer literal body: one digit, then `pyDigRun`. -/
def pyIntCore : Str → Option Nat
  | [] => none
  | c :: cs => if isDigitC c then pyDigRun (digitVal c) cs else none

/-- Python `int(s)`: strip whitespace, optional sign, decimal digits with
single underscores between digits; `none` models the `ValueError` raise. -/
def pyInt (s : Str) : Option Int :=
  if pstrip s = [] then none
  else if (pstrip s).head? = some '+' then Option.map Int.ofNat (pyIntCore (pstrip s).tail)
  else if (pstrip s).head? = some '-' then
    Option.map (fun n => -(Int.ofNat n)) (pyIntCore (pstrip s).tail)
  else Option.map Int.ofNat (pyIntCore (pstrip s))

/-- Fuel-driven body of `decRepr`; the fuel only serves structural
recursion and is irrelevant once it exceeds the argument. -/
def decReprAux : Nat → Nat → Str
  | 0, _ => []
  | fuel + 1, n =>
    if n < 10 then [Char.ofNat (48 + n)]
    else decReprAux fuel (n / 10) ++ [Char.ofNat (48 + n % 10)]

/-- Decimal representation of a natural number, as Python `str(n)` for
`n ≥ 0` (no sign, no leading zeros except for `0` itself). -/
def decRepr (n : Nat) : Str := decReprAux (n + 1) n

/-- Python `str(i)` for an `int`: a `-` sign for negatives, else `decRepr`. -/
def intRepr : Int → Str
  | Int.ofNat n => decRepr n
  | Int.negSucc n => '-' :: decRepr (n + 1)

/-! ### Python `dict` with string keys and values -/

/-- A Python `dict` from strings to strings, as an ordered association list:
first-insertion order is kept, keys are unique by construction. -/
abbrev Dict := List (Str × Str)

/-- Python `d[k] = v`: replace the value in place if the key is present,
otherwise append the new binding. -/
def dinsert (k v : Str) : Dict → Dict
  | [] => [(k, v)]
  | (k', v') :: rest => if k' = k then (k, v) :: rest else (k', v') :: dinsert k v rest

/-- Python `d.get(k)` / `k in d`: look a key up. -/
def dlookup (k : Str) : Dict → Option Str
  | [] => none
  | (k', v) :: rest => if k' = k then some v else dlookup k rest

/-! ### Data model (`src/core/models.py`) -/

/-- Port pair status enumeration. -/
inductive PortStatus
  | ACTIVE | DISABLED | ERROR | UNKNOWN
deriving DecidableEq, Repr

/-- Driver installation status enumeration. -/
inductive DriverStatus
  | INSTALLED | NOT_INSTALLED | NEEDS_UPDATE | ERROR
deriving DecidableEq, Repr

/-- Individual virtual port model. -/
structure Port where
  identifier : Str
  port_name : Str := []
  parameters : Dict := []
deriving DecidableEq, Repr

/-- Virtual port pair model.  The `__post_init__` defaulting of empty
identifiers never fires in the modelled code paths (the list parser always
constructs both identifiers non-empty), so it is not represented. -/
structure PortPair where
  number : Int
  port_a : Port
  port_b : Port
  status : PortStatus := PortStatus.UNKNOWN
deriving DecidableEq, Repr

/-- Result of one `setupc.exe` command execution.  The wall-clock
`execution_time` float of the source record is environment-dependent and
not modelled. -/
structure CommandResult where
  success : Bool
  output : Str := []
  error : Str := []
  return_code : Int := 0
  command : Str := []
deriving DecidableEq, Repr

/-- `CommandResult.get_error_message`: a user-facing message for failures. -/
def get_error_message (r : CommandResult) : Str :=
  if r.success then []
  else if r.error ≠ [] then r.error
  else if r.return_code ≠ 0 then lit "Command failed with exit code " ++ intRepr r.return_code
  else lit "Unknown error occurred"

/-- com0com driver information snapshot. -/
structure DriverInfo where
  status : DriverStatus
  install_path : Str := []
  error_message : Str := []
deriving DecidableEq, Repr

/-! ### Parameter validators (`src/core/validators.py`) -/

/-- `ParameterValidator.validate_port_number` on an `int` argument (the
manager always passes an `int`, so the `int(value)` conversion succeeds). -/
def validate_port_number (n : Int) : Bool × Str :=
  if 0 ≤ n ∧ n ≤ 999 then (true, [])
  else (false, lit "Port number must be between 0 and 999")

/-- The regex `^CNC[AB]\d+$` of `validate_port_identifier`. -/
def matchCNCAB : Str → Bool
  | 'C' :: 'N' :: 'C' :: c :: rest =>
    (c == 'A' || c == 'B') && !rest.isEmpty && rest.all isDigitC
  | _ => false

/-- `ParameterValidator.validate_port_identifier`. -/
def validate_port_identifier (s : Str) : Bool × Str :=
  if matchCNCAB s then (true, [])
  else (false, lit "Port identifier must match pattern CNC[AB]<number> (e.g., CNCA0, CNCB1)")

/-- The eleven valid pin source names of `validate_pin_assignment`. -/
def valid_pins : List Str :=
  [lit "rrts", lit "lrts", lit "rdtr", lit "ldtr",
   lit "rout1", lit "lout1", lit "rout2", lit "lout2",
   lit "ropen", lit "lopen", lit "on"]

/-- The `clean_value` local of `validate_pin_assignment`: drop one leading
`!` inversion mark if present (`value.startswith` then `value[1:]`). -/
def pinClean (value : Str) : Str :=
  match value with
  | '!' :: rest => rest
  | _ => value

/-- `ParameterValidator.validate_pin_assignment`: strip one leading `!`,
then accept the special values `-` / `*` or a known pin name.  The quote
characters of the source rejection message are not reproduced. -/
def validate_pin_assignment (value : Str) : Bool × Str :=
  if pinClean value = lit "-" ∨ pinClean value = lit "*" then (true, [])
  else if pinClean value ∈ valid_pins then (true, [])
  else (false, lit "Invalid pin assignment. Must be one of: rrts, lrts, rdtr, ldtr, rout1, lout1, rout2, lout2, ropen, lopen, on (optionally with a leading inversion mark)")

/-- The token loop of `validate_parameter_string`. -/
def validateParams : List Str → Bool × Str
  | [] => (true, [])
  | tok :: rest =>
    let param := pstrip tok
    match splitFirst '=' param with
    | none => (false, lit "Invalid parameter format: " ++ param ++ lit ". Expected format: key=value")
    | some (k, v) =>
      if pstrip k = [] then (false, lit "Parameter key cannot be empty")
      else if pstrip v = [] then
        (false, lit "Parameter value for " ++ pstrip k ++ lit " cannot be empty")
      else validateParams rest

/-- `ParameterValidator.validate_parameter_string`: the strict parser used
for user input. -/
def validate_parameter_string (param_string : Str) : Bool × Str :=
  if param_string = lit "-" ∨ param_string = lit "*" then (true, [])
  else validateParams (splitOnChar ',' param_string)

/-! ### Parameter builder and permissive parsers
(`src/core/validators.py`, `src/core/models.py`) -/

/-- A Python value stored in a parameter map handed to the builder:
a string, a boolean, or `None`. -/
inductive PValue
  | vStr (s : Str) | vBool (b : Bool) | vNone
deriving DecidableEq, Repr

/-- The filter and rendering applied to one entry by
`ParameterBuilder.build_parameter_string`: entries whose value is `None` or
the empty string are dropped (a Python `bool` compares unequal to `""`, so
booleans are always kept and rendered as `yes`/`no`). -/
def pvalueKept : PValue → Option Str
  | .vNone => none
  | .vStr s => if s = [] then none else some s
  | .vBool b => some (if b then lit "yes" else lit "no")

/-- `ParameterBuilder.build_parameter_string`. -/
def build_parameter_string (parameters : List (Str × PValue)) : Str :=
  if parameters = [] then lit "-"
  else
    let param_pairs := parameters.filterMap
      (fun kv => (pvalueKept kv.2).map (fun v => kv.1 ++ '=' :: v))
    if param_pairs = [] then lit "-" else joinSep ',' param_pairs

/-- The permissive token loop shared verbatim by
`ParameterBuilder.parse_parameter_string` and
`PortListParser._parse_parameters`: strip each comma-separated token, skip
tokens without `=`, split the rest on the first `=`, strip key and value,
assign into the dict. -/
def parseParamsTokens (toks : List Str) : Dict :=
  toks.foldl
    (fun parameters tok =>
      match splitFirst '=' (pstrip tok) with
      | some (k, v) => dinsert (pstrip k) (pstrip v) parameters
      | none => parameters)
    []

/-- `ParameterBuilder.parse_parameter_string`. -/
def parse_parameter_string (param_string : Str) : Dict :=
  if param_string = lit "-" ∨ param_string = lit "*" then []
  else parseParamsTokens (splitOnChar ',' param_string)

/-- `PortListParser._parse_parameters` (no special-casing of `-` / `*`). -/
def parse_parameters (params_str : Str) : Dict :=
  parseParamsTokens (splitOnChar ',' params_str)

/-! ### Port list parser (`src/core/models.py`, `PortListParser`) -/

/-- Update the first element satisfying the predicate, as Python mutation
of the object found by `next(...)` does. -/
def updateFirst (p : α → Bool) (f : α → α) : List α → List α
  | [] => []
  | x :: xs => if p x then f x :: xs else x :: updateFirst p f xs

/-- Stable insertion used to model Python `sorted(..., key=lambda p: p.number)`. -/
def insertSorted (x : PortPair) : List PortPair → List PortPair
  | [] => [x]
  | y :: ys => if x.number ≤ y.number then x :: y :: ys else y :: insertSorted x ys

/-- Python stable `sorted` by pair number. -/
def sortPairs (l : List PortPair) : List PortPair := l.foldr insertSorted []

/-- The mutation of one `Port` object by a port-record line: overwrite the
identifier with the line's first token; when further tokens exist, replace
the parameter dict with the parse of the rejoined remainder and, if it
contains `PortName`, also the port name. -/
def portFromLine (port : Port) (port_id : Str) (restToks : List Str) : Port :=
  let port1 : Port := { port with identifier := port_id }
  if restToks ≠ [] then
    let prms := parse_parameters (joinSep ' ' restToks)
    let port2 : Port := { port1 with parameters := prms }
    match dlookup (lit "PortName") prms with
    | some pn => { port2 with port_name := pn }
    | none => port2
  else port1

/-- The mutation of the found-or-created `PortPair` by a port-record line:
the 4th character routes to side A (on `A`) or side B (any other char). -/
def pairFromLine (port_type : Char) (port_id : Str) (restToks : List Str)
    (pp : PortPair) : PortPair :=
  if port_type = 'A' then { pp with port_a := portFromLine pp.port_a port_id restToks }
  else { pp with port_b := portFromLine pp.port_b port_id restToks }

/-- The fresh `PortPair` created when no pair with the parsed number is
known yet (Python `PortPair(number=..., port_a=Port(f"CNCA{n}"), ...)`). -/
def newPairFor (pair_num : Int) : PortPair :=
  { number := pair_num,
    port_a := { identifier := lit "CNCA" ++ intRepr pair_num },
    port_b := { identifier := lit "CNCB" ++ intRepr pair_num },
    status := .ACTIVE }

/-- One iteration of the `PortListParser.parse_port_list` line loop.
`Except.error` models the uncaught `ValueError` / `IndexError` raises of
`int(port_id[4:])` and `port_id[3]`. -/
def parsePortLine (port_pairs : List PortPair) (rawLine : Str) :
    Except Str (List PortPair) :=
  let line := pstrip rawLine
  if line = [] then .ok port_pairs
  else if (lit "CNC").isPrefixOf line then
    match splitWs line with
    | [] => .ok port_pairs
    | port_id :: restToks =>
      match pyInt (port_id.drop 4) with
      | none => .error (lit "invalid literal for int() with base 10")
      | some pair_num =>
        match port_id.drop 3 with
        | [] => .error (lit "string index out of range")
        | port_type :: _ =>
          let pairs2 :=
            if (port_pairs.find? (fun p => p.number == pair_num)).isSome then port_pairs
            else port_pairs ++ [newPairFor pair_num]
          .ok (updateFirst (fun p => p.number == pair_num)
                (pairFromLine port_type port_id restToks) pairs2)
  else .ok port_pairs

/-- `PortListParser.parse_port_list`. -/
def parse_port_list (output : Str) : Except Str (List PortPair) :=
  match (splitOnChar '\n' (pstrip output)).foldlM parsePortLine [] with
  | .ok pairs => .ok (sortPairs pairs)
  | .error e => .error e

/-- Whether an `Except` value is a success. -/
def exceptIsOk : Except Str (List PortPair) → Bool
  | .ok _ => true
  | .error _ => false

instance {ε α : Type} [DecidableEq ε] [DecidableEq α] : DecidableEq (Except ε α) := fun x y =>
  match x, y with
  | .ok a, .ok b => if h : a = b then .isTrue (by rw [h]) else .isFalse (by simp [h])
  | .error a, .error b => if h : a = b then .isTrue (by rw [h]) else .isFalse (by simp [h])
  | .ok _, .error _ => .isFalse (by simp)
  | .error _, .ok _ => .isFalse (by simp)

/-! ### Command worker (`SetupCommandWorker`, `src/core/command_manager.py`) -/

/-- The possible outcomes of the single `subprocess.run` call inside
`SetupCommandWorker.run`: a completed process with an exit code and captured
streams, or one of the three exceptions the worker catches. -/
inductive ProcOutcome
  | completed (returncode : Int) (stdout : Str) (stderr : Str)
  | timedOut
  | fileNotFound
  | unexpected (msg : Str)
deriving DecidableEq, Repr

/-- `SetupCommandWorker.run`: the `CommandResult` produced for each process
outcome.  The worker makes exactly one spawn attempt per run — there is no
retry path in the source. -/
def workerRun (command : Str) (timeout : Int) : ProcOutcome → CommandResult
  | .completed code sout serr =>
    { success := decide (code = 0), output := sout, error := serr,
      return_code := code, command := command }
  | .timedOut =>
    { success := false, output := [],
      error := lit "Command timed out after " ++ intRepr timeout ++ lit " seconds",
      return_code := -1, command := command }
  | .fileNotFound =>
    { success := false, output := [],
      error := lit "setupc.exe not found. Please ensure com0com is installed and setupc.exe is in your PATH.",
      return_code := -2, command := command }
  | .unexpected msg =>
    { success := false, output := [],
      error := lit "Unexpected error: " ++ msg,
      return_code := -3, command := command }

/-- The concatenation `f"{self.setupc_path} {command}"` built by
`CommandManager._execute_command_async`. -/
def full_command (setupc_path command : Str) : Str := setupc_path ++ ' ' :: command

/-- The argument vector the worker hands to `subprocess.run`:
`self.command.split()` (whitespace splitting of the full command string,
with `shell=False`). -/
def workerArgv (command : Str) : List Str := splitWs command

/-! ### Command manager (`CommandManager`, `src/core/command_manager.py`) -/

/-- Which operation the currently outstanding worker belongs to; determines
the completion handler attached by the requesting method. -/
inductive Pending
  | plist | pinstall | premove | pchange | pdriver | ppreinstall | pupdate
  | preload | puninstall | pdisable | penable | pinfclean | plistfnames
  | pbusynames | pupdatefnames
deriving DecidableEq, Repr

/-- Manager state: the configured tool path, the number of outstanding
worker invocations (`current_worker is not None and isRunning()` is modelled
as `outstanding ≠ 0`), the pending operation kind, and the cached port
pair list. -/
structure MState where
  setupc_path : Str
  outstanding : Nat := 0
  pending : Option Pending := none
  cache : List PortPair := []
deriving DecidableEq, Repr

/-- The typed events (Qt signals) the manager emits. -/
inductive Event
  | portListUpdated (pairs : List PortPair)
  | commandCompleted (r : CommandResult)
  | driverStatusChanged (d : DriverInfo)
  | errorOccurred (msg : Str)
deriving DecidableEq, Repr

/-- Result of one manager step: the new state, the events emitted during the
step in order, and the full command strings of processes spawned during the
step. -/
structure StepOut where
  state : MState
  events : List Event
  spawned : List Str
deriving DecidableEq, Repr

/-- `CommandManager._execute_command_async`: reject with a single error
event while a worker is outstanding, otherwise spawn one worker. -/
def execute_command_async (s : MState) (command : Str) (k : Pending) : StepOut :=
  if s.outstanding ≠ 0 then
    { state := s,
      events := [.errorOccurred (lit "Another command is already running. Please wait.")],
      spawned := [] }
  else
    { state := { s with outstanding := 1, pending := some k },
      events := [],
      spawned := [full_command s.setupc_path command] }

/-- The driver-status classification inside
`CommandManager.get_driver_status`'s completion handler. -/
def classifyDriverStatus (setupc_path : Str) (r : CommandResult) : DriverInfo :=
  if r.success then
    { status := .INSTALLED, install_path := setupc_path }
  else if containsSub (lit "not found") (pyLower r.error) then
    { status := .NOT_INSTALLED, error_message := lit "setupc.exe not found" }
  else
    { status := .ERROR, error_message := get_error_message r }

/-- The public operations of the Command Manager. -/
inductive Op
  | listPorts
  | installPortPair (pair_number : Option Int) (params_a params_b : Str)
  | removePortPair (pair_number : Int)
  | changePortConfig (port_id : Str) (parameters : Str)
  | getDriverStatus
  | preinstallDriver | updateDriver | reloadDriver | uninstallDriver
  | disableAllPorts | enableAllPorts
  | cleanInfFiles | listFriendlyNames
  | checkBusyNames (pattern : Str)
  | updateFriendlyNames
deriving DecidableEq, Repr

/-- Requesting one public operation: the synchronous validation phase of
each method followed by `_execute_command_async`.  Command strings are the
`SETUPC_COMMANDS` templates of `src/utils/constants.py` instantiated. -/
def requestOp (s : MState) : Op → StepOut
  | .listPorts => execute_command_async s (lit "list") .plist
  | .installPortPair pair_number params_a params_b =>
    if params_a ≠ lit "-" ∧ ¬ (validate_parameter_string params_a).1 then
      { state := s,
        events := [.errorOccurred (lit "Invalid parameters for port A: " ++ (validate_parameter_string params_a).2)],
        spawned := [] }
    else if params_b ≠ lit "-" ∧ ¬ (validate_parameter_string params_b).1 then
      { state := s,
        events := [.errorOccurred (lit "Invalid parameters for port B: " ++ (validate_parameter_string params_b).2)],
        spawned := [] }
    else
      match pair_number with
      | some n =>
        if ¬ (validate_port_number n).1 then
          { state := s,
            events := [.errorOccurred (lit "Invalid port number: " ++ (validate_port_number n).2)],
            spawned := [] }
        else
          execute_command_async s
            (lit "install " ++ intRepr n ++ ' ' :: params_a ++ ' ' :: params_b) .pinstall
      | none =>
        execute_command_async s (lit "install " ++ params_a ++ ' ' :: params_b) .pinstall
  | .removePortPair pair_number =>
    if ¬ (validate_port_number pair_number).1 then
      { state := s,
        events := [.errorOccurred (lit "Invalid port number: " ++ (validate_port_number pair_number).2)],
        spawned := [] }
    else execute_command_async s (lit "remove " ++ intRepr pair_number) .premove
  | .changePortConfig port_id parameters =>
    if ¬ (validate_port_identifier port_id).1 then
      { state := s,
        events := [.errorOccurred (lit "Invalid port identifier: " ++ (validate_port_identifier port_id).2)],
        spawned := [] }
    else if ¬ (validate_parameter_string parameters).1 then
      { state := s,
        events := [.errorOccurred (lit "Invalid parameters: " ++ (validate_parameter_string parameters).2)],
        spawned := [] }
    else execute_command_async s (lit "change " ++ port_id ++ ' ' :: parameters) .pchange
  | .getDriverStatus => execute_command_async s (lit "list") .pdriver
  | .preinstallDriver => execute_command_async s (lit "preinstall") .ppreinstall
  | .updateDriver => execute_command_async s (lit "update") .pupdate
  | .reloadDriver => execute_command_async s (lit "reload") .preload
  | .uninstallDriver => execute_command_async s (lit "uninstall") .puninstall
  | .disableAllPorts => execute_command_async s (lit "disable all") .pdisable
  | .enableAllPorts => execute_command_async s (lit "enable all") .penable
  | .cleanInfFiles => execute_command_async s (lit "infclean") .pinfclean
  | .listFriendlyNames => execute_command_async s (lit "listfnames") .plistfnames
  | .checkBusyNames pattern =>
    if pstrip pattern = [] then
      { state := s,
        events := [.errorOccurred (lit "Pattern cannot be empty for busy names check")],
        spawned := [] }
    else execute_command_async s (lit "busynames " ++ pattern) .pbusynames
  | .updateFriendlyNames => execute_command_async s (lit "updatefnames") .pupdatefnames

/-- Delivery of a worker completion: `_on_command_finished` (which always
emits `command_completed` and, on failure, a generic error) followed by the
completion handler the requesting method attached.  Handlers that call
`list_ports()` re-enter `_execute_command_async`; `QTimer`-delayed
driver-status refreshes fire later on the event loop and are outside a
single completion step.  Delivering a completion with no worker outstanding
cannot happen and is a no-op. -/
def finishCommand (s : MState) (r : CommandResult) : StepOut :=
  if s.outstanding = 0 then { state := s, events := [], spawned := [] }
  else
    let s0 : MState := { s with outstanding := s.outstanding - 1, pending := none }
    let ev0 : List Event :=
      .commandCompleted r ::
        (if r.success then [] else [.errorOccurred (get_error_message r)])
    match s.pending with
    | none => { state := s0, events := ev0, spawned := [] }
    | some .plist =>
      if r.success then
        match parse_port_list r.output with
        | .ok pairs =>
          { state := { s0 with cache := pairs },
            events := ev0 ++ [.portListUpdated pairs], spawned := [] }
        | .error e =>
          { state := s0,
            events := ev0 ++ [.errorOccurred (lit "Failed to parse port list: " ++ e)],
            spawned := [] }
      else
        { state := s0,
          events := ev0 ++ [.errorOccurred (lit "Failed to list ports: " ++ get_error_message r)],
          spawned := [] }
    | some .pinstall =>
      if r.success then
        let t := execute_command_async s0 (lit "list") .plist
        { state := t.state, events := ev0 ++ t.events, spawned := t.spawned }
      else
        { state := s0,
          events := ev0 ++ [.errorOccurred (lit "Failed to install port pair: " ++ get_error_message r)],
          spawned := [] }
    | some .premove =>
      if r.success then
        let t := execute_command_async s0 (lit "list") .plist
        { state := t.state, events := ev0 ++ t.events, spawned := t.spawned }
      else
        { state := s0,
          events := ev0 ++ [.errorOccurred (lit "Failed to remove port pair: " ++ get_error_message r)],
          spawned := [] }
    | some .pchange =>
      if r.success then
        let t := execute_command_async s0 (lit "list") .plist
        { state := t.state, events := ev0 ++ t.events, spawned := t.spawned }
      else
        { state := s0,
          events := ev0 ++ [.errorOccurred (lit "Failed to change port configuration: " ++ get_error_message r)],
          spawned := [] }
    | some .pdriver =>
      { state := s0,
        events := ev0 ++ [.driverStatusChanged (classifyDriverStatus s.setupc_path r)],
        spawned := [] }
    | some .ppreinstall => { state := s0, events := ev0, spawned := [] }
    | some .pupdate => { state := s0, events := ev0, spawned := [] }
    | some .preload =>
      if r.success then
        let t := execute_command_async s0 (lit "list") .plist
        { state := t.state, events := ev0 ++ t.events, spawned := t.spawned }
      else { state := s0, events := ev0, spawned := [] }
    | some .puninstall =>
      if r.success then
        { state := { s0 with cache := [] },
          events := ev0 ++ [.portListUpdated []], spawned := [] }
      else { state := s0, events := ev0, spawned := [] }
    | some .pdisable =>
      if r.success then
        let t := execute_command_async s0 (lit "list") .plist
        { state := t.state, events := ev0 ++ t.events, spawned := t.spawned }
      else { state := s0, events := ev0, spawned := [] }
    | some .penable =>
      if r.success then
        let t := execute_command_async s0 (lit "list") .plist
        { state := t.state, events := ev0 ++ t.events, spawned := t.spawned }
      else { state := s0, events := ev0, spawned := [] }
    | some .pinfclean =>
      if r.success then { state := s0, events := ev0, spawned := [] }
      else
        { state := s0,
          events := ev0 ++ [.errorOccurred (lit "Failed to clean INF files: " ++ get_error_message r)],
          spawned := [] }
    | some .plistfnames =>
      if r.success then { state := s0, events := ev0, spawned := [] }
      else
        { state := s0,
          events := ev0 ++ [.errorOccurred (lit "Failed to list friendly names: " ++ get_error_message r)],
          spawned := [] }
    | some .pbusynames =>
      if r.success then { state := s0, events := ev0, spawned := [] }
      else
        { state := s0,
          events := ev0 ++ [.errorOccurred (lit "Failed to check busy names: " ++ get_error_message r)],
          spawned := [] }
    | some .pupdatefnames =>
      if r.success then
        let t := execute_command_async s0 (lit "list") .plist
        { state := t.state, events := ev0 ++ t.events, spawned := t.spawned }
      else
        { state := s0,
          events := ev0 ++ [.errorOccurred (lit "Failed to update friendly names: " ++ get_error_message r)],
          spawned := [] }

/-- An externally observable action on the manager: a public operation
request, or delivery of the outstanding worker's completion. -/
inductive Act
  | request (op : Op)
  | finish (r : CommandResult)

/-- One manager step. -/
def runAct (s : MState) : Act → StepOut
  | .request op => requestOp s op
  | .finish r => finishCommand s r

/-- Whether an event is an `error_occurred` emission. -/
def isErrorEvent : Event → Bool
  | .errorOccurred _ => true
  | _ => false

/-- Whether some `error_occurred` event appears in a list. -/
def hasErrorEvent (evs : List Event) : Bool := evs.any isErrorEvent

/-! ### Claim-facing predicates -/

/-- The identifier invariant claimed for every parsed `PortPair`:
each side's identifier is the letter prefix followed by the decimal
rendering of the owning pair's number. -/
def pairInv (pp : PortPair) : Prop :=
  pp.port_a.identifier = lit "CNCA" ++ intRepr pp.number
  ∧ pp.port_b.identifier = lit "CNCB" ++ intRepr pp.number

/-- Boolean form of `pairInv`, for concrete evaluation. -/
def pairInvB (pp : PortPair) : Bool :=
  (pp.port_a.identifier == lit "CNCA" ++ intRepr pp.number)
  && (pp.port_b.identifier == lit "CNCB" ++ intRepr pp.number)

/-- Whether an `.ok` parser result consists only of invariant-satisfying
pairs (errors count as vacuously fine). -/
def parsedPairsInv : Except Str (List PortPair) → Bool
  | .ok l => l.all pairInvB
  | .error _ => true

/-- A line is harmless for the parser when, if its stripped form starts
with `CNC`, the suffix of its first whitespace token after the first four
characters is parsable by Python `int()`. -/
def lineIntParsable (line : Str) : Prop :=
  (lit "CNC").isPrefixOf (pstrip line) = true →
    ∃ t rest, splitWs (pstrip line) = t :: rest ∧ (pyInt (t.drop 4)).isSome = true

/-- A canonical port-record token: `CNCA` or `CNCB` followed by the
canonical decimal rendering of a natural number. -/
def goodTok (t : Str) : Prop :=
  ∃ n : Nat, t = lit "CNCA" ++ decRepr n ∨ t = lit "CNCB" ++ decRepr n

/-- A line whose port record, if any, carries a canonical token. -/
def lineCanonical (line : Str) : Prop :=
  (lit "CNC").isPrefixOf (pstrip line) = true →
    ∃ t rest, splitWs (pstrip line) = t :: rest ∧ goodTok t

/-- Written from the words of claim C9: an accepted pin assignment is an
optional leading inversion mark before one of the eleven pin names, or the
bare special value `-` or `*` (no inversion mark allowed on those). -/
def pinSpecClaimed (s : Str) : Prop :=
  (∃ w ∈ valid_pins, s = w ∨ s = '!' :: w) ∨ s = lit "-" ∨ s = lit "*"

/-- The pin values accepted with or without a leading inversion mark:
the eleven pin names and the two special values. -/
def pinAcceptBase : List Str := valid_pins ++ [lit "-", lit "*"]

/-- The key/value pairs extracted from a comma-separated parameter string
by the permissive token loop, in token order, before dict insertion. -/
def tokenPairs (toks : List Str) : List (Str × Str) :=
  toks.filterMap
    (fun tok => (splitFirst '=' (pstrip tok)).map (fun p => (pstrip p.1, pstrip p.2)))

/-- The value of the last extracted pair carrying the given key. -/
def lastValueFor (k : Str) : List (Str × Str) → Option Str
  | [] => none
  | (k', v) :: ps =>
    match lastValueFor k ps with
    | some v2 => some v2
    | none => if k' = k then some v else none

/-- A parameter-map key that survives the builder/parser round trip
unchanged: no whitespace, no comma, no equals sign in any character. -/
def cleanKeyB (k : Str) : Bool :=
  k.all (fun c => !isPySpace c && c != ',' && c != '=')

/-- A parameter-map value that survives the round trip unchanged:
no whitespace and no comma in any character (an equals sign is fine,
since tokens are split on the first equals sign only). -/
def cleanValB (v : Str) : Bool :=
  v.all (fun c => !isPySpace c && c != ',')

/-- The entries of a parameter map that `build_parameter_string` keeps,
with values rendered to strings. -/
def keptEntries (m : List (Str × PValue)) : List (Str × Str) :=
  m.filterMap (fun kv => (pvalueKept kv.2).map (fun v => (kv.1, v)))

/-! ### Sanity checks: concrete evaluations of the embedded functions -/

example : splitOnChar ',' (lit "") = [lit ""] := by decide

example : splitOnChar ',' (lit "a=1,,b=2") = [lit "a=1", lit "", lit "b=2"] := by decide

example : splitWs (lit "  a  bc ") = [lit "a", lit "bc"] := by decide

example : splitWs (lit "") = [] := by decide

example : pstrip (lit "  ab ") = lit "ab" := by decide

example : pyInt (lit "05") = some 5 := by decide

example : pyInt (lit "1_2") = some 12 := by decide

example : pyInt (lit "-3") = some (-3) := by decide

example : pyInt (lit "") = none := by decide

example : pyInt (lit "_1") = none := by decide

example : pyInt (lit "1_") = none := by decide

example : pyInt (lit "xy") = none := by decide

example : decRepr 305 = lit "305" := by decide

example : intRepr (-12) = lit "-12" := by decide

example : splitFirst '=' (lit "a=b=c") = some (lit "a", lit "b=c") := by decide

example : containsSub (lit "not found") (pyLower (lit "File NOT FOUND!")) = true := by decide

example : joinSep ' ' [lit "a", lit "b,c"] = lit "a b,c" := by decide

example :
    parse_port_list (lit "CNCA0 PortName=COM8,EmuBR=yes\nCNCB0 PortName=COM9") =
      .ok [{ number := 0,
             port_a := { identifier := lit "CNCA0", port_name := lit "COM8",
                         parameters := [(lit "PortName", lit "COM8"), (lit "EmuBR", lit "yes")] },
             port_b := { identifier := lit "CNCB0", port_name := lit "COM9",
                         parameters := [(lit "PortName", lit "COM9")] },
             status := .ACTIVE }] := by decide

example : exceptIsOk (parse_port_list (lit "CNCA")) = false := by decide

example : exceptIsOk (parse_port_list (lit "garbage line\n\n")) = true := by decide

example : (validate_pin_assignment (lit "!-")).1 = true := by decide

example :
    requestOp { setupc_path := lit "setupc.exe", outstanding := 1, pending := some .plist } .listPorts =
      { state := { setupc_path := lit "setupc.exe", outstanding := 1, pending := some .plist },
        events := [.errorOccurred (lit "Another command is already running. Please wait.")],
        spawned := [] } := by decide

example :
    (requestOp { setupc_path := lit "setupc.exe" } .listPorts).spawned =
      [lit "setupc.exe list"] := by decide

/-! ### Helper lemmas -/

lemma append_ne_nil_left (l t : Str) (h : l ≠ []) : l ++ t ≠ [] := by
  intro hc
  exact h (List.append_eq_nil.mp hc).1

lemma execute_outstanding_le (s : MState) (cmd : Str) (k : Pending)
    (h : s.outstanding ≤ 1) : (execute_command_async s cmd k).state.outstanding ≤ 1 := by
  unfold execute_command_async
  split <;> simp [h]

lemma execute_busy (s : MState) (cmd : Str) (k : Pending) (h : s.outstanding ≠ 0) :
    execute_command_async s cmd k =
      { state := s,
        events := [.errorOccurred (lit "Another command is already running. Please wait.")],
        spawned := [] } := by
  unfold execute_command_async
  simp [h]

/-! ### C6: worker result classification -/

/-- C6: the worker result has `success` true exactly for exit code 0, and
the three abnormal outcomes map to the reserved codes -1 (timeout),
-2 (executable not found) and -3 (any other exception), each with
`success = false` and a non-empty error string; the worker makes a single
spawn attempt, so no retry occurs. -/
theorem worker_result_classification (command : Str) (timeout : Int)
    (code : Int) (sout serr msg : Str) :
    (workerRun command timeout (.completed code sout serr)).success = decide (code = 0)
    ∧ (workerRun command timeout (.completed code sout serr)).return_code = code
    ∧ (workerRun command timeout .timedOut).success = false
    ∧ (workerRun command timeout .timedOut).return_code = -1
    ∧ (workerRun command timeout .timedOut).error ≠ []
    ∧ (workerRun command timeout .fileNotFound).success = false
    ∧ (workerRun command timeout .fileNotFound).return_code = -2
    ∧ (workerRun command timeout .fileNotFound).error ≠ []
    ∧ (workerRun command timeout (.unexpected msg)).success = false
    ∧ (workerRun command timeout (.unexpected msg)).return_code = -3
    ∧ (workerRun command timeout (.unexpected msg)).error ≠ [] := by
  refine ⟨rfl, rfl, rfl, rfl, ?_, rfl, rfl, ?_, rfl, rfl, ?_⟩
  · exact append_ne_nil_left _ _ (append_ne_nil_left _ _ (by decide))
  · show lit "setupc.exe not found. Please ensure com0com is installed and setupc.exe is in your PATH." ≠ []
    decide
  · exact append_ne_nil_left _ _ (by decide)

/-! ### C8: driver status classification -/

/-- C8: `get_driver_status` classifies a successful probe as Installed, a
failure whose error text contains "not found" case-insensitively as
NotInstalled, and any other failure as Error carrying that failure's
message; its completion handler never changes the cached port list. -/
theorem get_driver_status_classification (path : Str) (r : CommandResult) (s : MState)
    (hp : s.pending = some .pdriver) :
    (r.success = true →
      classifyDriverStatus path r = { status := .INSTALLED, install_path := path })
    ∧ (r.success = false → containsSub (lit "not found") (pyLower r.error) = true →
      (classifyDriverStatus path r).status = .NOT_INSTALLED)
    ∧ (r.success = false → containsSub (lit "not found") (pyLower r.error) = false →
      (classifyDriverStatus path r).status = .ERROR
        ∧ (classifyDriverStatus path r).error_message = get_error_message r)
    ∧ (finishCommand s r).state.cache = s.cache := by
  refine ⟨?_, ?_, ?_, ?_⟩
  · intro h; simp [classifyDriverStatus, h]
  · intro h hnf; simp [classifyDriverStatus, h, hnf]
  · intro h hnf; simp [classifyDriverStatus, h, hnf]
  · unfold finishCommand
    split
    · rfl
    · rw [hp]

/-- Witness for C8 at a concrete failed probe whose stderr mentions
"NOT FOUND". -/
theorem get_driver_status_classification_witness :
    (({ success := false, error := lit "setupc.exe NOT FOUND" } : CommandResult).success = false →
      containsSub (lit "not found")
        (pyLower ({ success := false, error := lit "setupc.exe NOT FOUND" } : CommandResult).error) = true →
      (classifyDriverStatus (lit "setupc.exe")
        { success := false, error := lit "setupc.exe NOT FOUND" }).status = .NOT_INSTALLED)
    ∧ (finishCommand
        { setupc_path := lit "setupc.exe", outstanding := 1, pending := some .pdriver,
          cache := [] }
        { success := false, error := lit "setupc.exe NOT FOUND" }).state.cache =
      ({ setupc_path := lit "setupc.exe", outstanding := 1, pending := some .pdriver,
          cache := [] } : MState).cache :=
  ⟨(get_driver_status_classification (lit "setupc.exe")
      { success := false, error := lit "setupc.exe NOT FOUND" }
      { setupc_path := lit "setupc.exe", outstanding := 1, pending := some .pdriver, cache := [] }
      rfl).2.1,
   (get_driver_status_classification (lit "setupc.exe")
      { success := false, error := lit "setupc.exe NOT FOUND" }
      { setupc_path := lit "setupc.exe", outstanding := 1, pending := some .pdriver, cache := [] }
      rfl).2.2.2⟩

/-! ### C7: list completion keeps the cache on failure -/

/-- C7: when the list command's completion is a failure, or a success whose
output makes the parser raise, the completion handler emits an
error-occurred event and leaves the cached port-pair list exactly as it
was. -/
theorem list_ports_failure_keeps_cache (s : MState) (r : CommandResult)
    (hp : s.pending = some .plist) (ho : s.outstanding = 1) :
    (r.success = false →
      (finishCommand s r).state.cache = s.cache
        ∧ hasErrorEvent (finishCommand s r).events = true)
    ∧ (r.success = true → exceptIsOk (parse_port_list r.output) = false →
      (finishCommand s r).state.cache = s.cache
        ∧ hasErrorEvent (finishCommand s r).events = true) := by
  constructor
  · intro hf
    unfold finishCommand
    rw [hp]
    simp [ho, hf, hasErrorEvent, isErrorEvent]
  · intro hsucc hbad
    unfold finishCommand
    rw [hp]
    cases hpp : parse_port_list r.output with
    | ok l => rw [hpp] at hbad; simp [exceptIsOk] at hbad
    | error e => simp [ho, hsucc, hpp, hasErrorEvent, isErrorEvent]

/-- Witness for C7: a failed list completion against a one-pair cache. -/
theorem list_ports_failure_keeps_cache_witness :
    (finishCommand
        { setupc_path := lit "setupc.exe", outstanding := 1, pending := some .plist,
          cache := [{ number := 0, port_a := { identifier := lit "CNCA0" },
                      port_b := { identifier := lit "CNCB0" }, status := .ACTIVE }] }
        { success := false, error := lit "boom" }).state.cache =
      ({ setupc_path := lit "setupc.exe", outstanding := 1, pending := some .plist,
          cache := [{ number := 0, port_a := { identifier := lit "CNCA0" },
                      port_b := { identifier := lit "CNCB0" }, status := .ACTIVE }] } : MState).cache
    ∧ hasErrorEvent
        (finishCommand
          { setupc_path := lit "setupc.exe", outstanding := 1, pending := some .plist,
            cache := [{ number := 0, port_a := { identifier := lit "CNCA0" },
                        port_b := { identifier := lit "CNCB0" }, status := .ACTIVE }] }
          { success := false, error := lit "boom" }).events = true :=
  (list_ports_failure_keeps_cache
    { setupc_path := lit "setupc.exe", outstanding := 1, pending := some .plist,
      cache := [{ number := 0, port_a := { identifier := lit "CNCA0" },
                  port_b := { identifier := lit "CNCB0" }, status := .ACTIVE }] }
    { success := false, error := lit "boom" } rfl rfl).1 rfl

/-! ### C1: serialization invariant -/

/-- C1: every manager step keeps at most one worker invocation outstanding,
and any public operation requested while a worker is outstanding emits
exactly one error-occurred event, spawns no process, and leaves the whole
manager state — in particular the cached port-pair list — unchanged. -/
theorem serialization_invariant :
    (∀ (s : MState) (a : Act), s.outstanding ≤ 1 → (runAct s a).state.outstanding ≤ 1)
    ∧ (∀ (s : MState) (op : Op), s.outstanding ≠ 0 →
        (∃ m, (runAct s (.request op)).events = [Event.errorOccurred m])
        ∧ (runAct s (.request op)).spawned = []
        ∧ (runAct s (.request op)).state = s) := by
  constructor
  · intro s a h
    cases a with
    | request op =>
      cases op <;> simp only [runAct, requestOp] <;> repeat' split
      all_goals first
        | exact h
        | exact execute_outstanding_le _ _ _ h
    | finish r =>
      simp only [runAct]
      unfold finishCommand
      split
      · exact h
      · repeat' split
        all_goals simp only []
        all_goals first
          | (apply execute_outstanding_le; simp; omega)
          | (simp; omega)
  · intro s op h
    cases op <;> simp only [runAct, requestOp] <;> repeat' split
    all_goals first
      | exact ⟨⟨_, rfl⟩, rfl, rfl⟩
      | (rw [execute_busy _ _ _ h]; exact ⟨⟨_, rfl⟩, rfl, rfl⟩)

/-- Witness for C1: a concrete step from a busy state and a request that is
rejected with one error and no spawn. -/
theorem serialization_invariant_witness :
    (runAct { setupc_path := lit "setupc.exe", outstanding := 1, pending := some .plist }
        (.request .listPorts)).state.outstanding ≤ 1
    ∧ ((∃ m, (runAct { setupc_path := lit "setupc.exe", outstanding := 1, pending := some .plist }
          (.request .listPorts)).events = [Event.errorOccurred m])
      ∧ (runAct { setupc_path := lit "setupc.exe", outstanding := 1, pending := some .plist }
          (.request .listPorts)).spawned = []
      ∧ (runAct { setupc_path := lit "setupc.exe", outstanding := 1, pending := some .plist }
          (.request .listPorts)).state =
        { setupc_path := lit "setupc.exe", outstanding := 1, pending := some .plist }) :=
  ⟨serialization_invariant.1
      { setupc_path := lit "setupc.exe", outstanding := 1, pending := some .plist }
      (.request .listPorts) (by decide),
   serialization_invariant.2
      { setupc_path := lit "setupc.exe", outstanding := 1, pending := some .plist }
      .listPorts (by decide)⟩

/-! ### C9: pin assignment characterization -/

lemma pinClean_bang (cs : Str) : pinClean ('!' :: cs) = cs := rfl

lemma pinClean_not_bang (c : Char) (cs : Str) (hc : c ≠ '!') :
    pinClean (c :: cs) = c :: cs := by
  unfold pinClean
  split
  · rename_i rest heq
    obtain ⟨h1, h2⟩ := List.cons.inj heq
    exact absurd h1 hc
  · rfl

lemma validate_pin_accept_iff (v : Str) :
    (validate_pin_assignment v).1 = true ↔ pinClean v ∈ pinAcceptBase := by
  unfold validate_pin_assignment
  split_ifs with h1 h2
  · constructor
    · intro _
      unfold pinAcceptBase
      rcases h1 with h | h <;> rw [h] <;> decide
    · exact fun _ => rfl
  · exact ⟨fun _ => List.mem_append_left _ h2, fun _ => rfl⟩
  · constructor
    · intro h; exact absurd h (by decide)
    · intro hmem
      rcases List.mem_append.mp hmem with h | h
      · exact absurd h h2
      · exfalso
        apply h1
        simpa using h

/-- C9 counterexample: the code accepts the string formed by an inversion
mark before the special value `-`, which the claimed acceptance set (bare
specials only) excludes. -/
theorem validate_pin_assignment_claim_counterexample :
    (validate_pin_assignment (lit "!-")).1 = true ∧ ¬ pinSpecClaimed (lit "!-") := by
  constructor
  · decide
  · unfold pinSpecClaimed
    decide

/-- C9 (amended): the validator accepts exactly the strings that are an
optional leading inversion mark followed by one of the eleven pin names or
by one of the special values `-` / `*`; every rejected string gets a
non-empty reason. -/
theorem validate_pin_assignment_characterization (s : Str) :
    ((validate_pin_assignment s).1 = true ↔
      ∃ w ∈ pinAcceptBase, s = w ∨ s = '!' :: w)
    ∧ ((validate_pin_assignment s).1 = false → (validate_pin_assignment s).2 ≠ []) := by
  have hbase : ∀ w ∈ pinAcceptBase, w.head? ≠ some '!' := by decide
  constructor
  · rw [validate_pin_accept_iff]
    cases s with
    | nil =>
      constructor
      · intro h
        exact absurd h (by decide)
      · rintro ⟨w, hw, h | h⟩
        · subst h; exact absurd hw (by decide)
        · exact absurd h (by simp)
    | cons c cs =>
      by_cases hc : c = '!'
      · subst hc
        rw [pinClean_bang]
        constructor
        · intro h; exact ⟨cs, h, Or.inr rfl⟩
        · rintro ⟨w, hw, h | h⟩
          · have hh := hbase w hw
            rw [← h] at hh
            simp at hh
          · obtain ⟨-, h2⟩ := List.cons.inj h
            rw [h2]; exact hw
      · rw [pinClean_not_bang c cs hc]
        constructor
        · intro h; exact ⟨c :: cs, h, Or.inl rfl⟩
        · rintro ⟨w, hw, h | h⟩
          · rw [h]; exact hw
          · obtain ⟨h1, -⟩ := List.cons.inj h
            exact absurd h1 hc
  · intro h
    unfold validate_pin_assignment at h ⊢
    split_ifs at h ⊢ with h1 h2
    decide

/-- Witness for C9 at the concrete rejected input from the spec example. -/
theorem validate_pin_assignment_characterization_witness :
    ((validate_pin_assignment (lit "!bogus")).1 = true ↔
      ∃ w ∈ pinAcceptBase, lit "!bogus" = w ∨ lit "!bogus" = '!' :: w)
    ∧ ((validate_pin_assignment (lit "!bogus")).1 = false →
      (validate_pin_assignment (lit "!bogus")).2 ≠ []) :=
  validate_pin_assignment_characterization (lit "!bogus")

/-! ### C10: duplicate keys resolve to the last well-formed token -/

lemma dlookup_dinsert (k k' v : Str) (d : Dict) :
    dlookup k (dinsert k' v d) = if k' = k then some v else dlookup k d := by
  induction d with
  | nil => simp [dinsert, dlookup]
  | cons kv rest ih =>
    obtain ⟨k2, v2⟩ := kv
    by_cases h1 : k2 = k'
    · simp only [dinsert, if_pos h1]
      subst h1
      by_cases h2 : k2 = k
      · simp [dlookup, h2]
      · simp [dlookup, h2]
    · simp only [dinsert, if_neg h1]
      by_cases h2 : k2 = k
      · have h3 : ¬ k' = k := fun he => h1 (h2.trans he.symm)
        simp [dlookup, h2, h3]
      · simp [dlookup, h2, ih]

lemma dlookup_foldl_dinsert (k : Str) (ps : List (Str × Str)) :
    ∀ d : Dict, dlookup k (ps.foldl (fun d p => dinsert p.1 p.2 d) d) =
      match lastValueFor k ps with
      | some v => some v
      | none => dlookup k d := by
  induction ps with
  | nil => intro d; rfl
  | cons p ps ih =>
    intro d
    obtain ⟨k1, v1⟩ := p
    simp only [List.foldl_cons]
    rw [ih]
    simp only [lastValueFor]
    cases hl : lastValueFor k ps with
    | some v2 => rfl
    | none =>
      rw [dlookup_dinsert]
      by_cases h : k1 = k <;> simp [h]

lemma parseParamsTokens_go (toks : List Str) : ∀ d : Dict,
    toks.foldl
      (fun parameters tok =>
        match splitFirst '=' (pstrip tok) with
        | some (k, v) => dinsert (pstrip k) (pstrip v) parameters
        | none => parameters) d =
    (tokenPairs toks).foldl (fun d p => dinsert p.1 p.2 d) d := by
  induction toks with
  | nil => intro d; rfl
  | cons t ts ih =>
    intro d
    simp only [List.foldl_cons, tokenPairs, List.filterMap_cons]
    cases hs : splitFirst '=' (pstrip t) with
    | none => exact ih d
    | some p =>
      obtain ⟨a, b⟩ := p
      exact ih (dinsert (pstrip a) (pstrip b) d)

lemma parseParamsTokens_eq (toks : List Str) :
    parseParamsTokens toks = (tokenPairs toks).foldl (fun d p => dinsert p.1 p.2 d) [] :=
  parseParamsTokens_go toks []

lemma getLast?_cons_of_ne_nil (a : α) (l : List α) (h : l ≠ []) :
    (a :: l).getLast? = l.getLast? := by
  cases l with
  | nil => exact absurd rfl h
  | cons b bs => simp [List.getLast?_cons_cons]

lemma lastValueFor_eq_getLast (k : Str) (ps : List (Str × Str)) :
    lastValueFor k ps =
      ((ps.filter (fun p => decide (p.1 = k))).getLast?).map Prod.snd := by
  induction ps with
  | nil => rfl
  | cons p ps ih =>
    obtain ⟨k1, v1⟩ := p
    simp only [lastValueFor, List.filter_cons]
    by_cases h : k1 = k
    · subst h
      rw [if_pos (by simp : (decide (k1 = k1) = true))]
      cases hg : ((ps.filter (fun p => decide (p.1 = k1))).getLast?) with
      | none =>
        have hnil : ps.filter (fun p => decide (p.1 = k1)) = [] :=
          List.getLast?_eq_none_iff.mp hg
        have hl : lastValueFor k1 ps = none := by rw [ih, hg]; rfl
        rw [hl, hnil]
        simp
      | some pr =>
        have hne : ps.filter (fun p => decide (p.1 = k1)) ≠ [] := by
          intro hnil; rw [hnil] at hg; exact Option.noConfusion hg
        have hl : lastValueFor k1 ps = some pr.2 := by rw [ih, hg]; rfl
        rw [getLast?_cons_of_ne_nil _ _ hne, hg, hl]
        rfl
    · rw [if_neg (by simp [h] : ¬ (decide (k1 = k) = true))]
      rw [← ih]
      cases hl : lastValueFor k ps with
      | some v2 => rfl
      | none => simp [h]

/-- C10: when the same key occurs in more than one well-formed `key=value`
token of a parameter string, both permissive parsers (the Parameter
Builder's parse and the Port List Parser's internal parameter parse) bind
that key to the value of the last such token; earlier values are silently
lost (no error is representable — both functions totally return a dict). -/
theorem duplicate_key_last_wins (s k : Str)
    (h2 : 2 ≤ ((tokenPairs (splitOnChar ',' s)).filter (fun p => decide (p.1 = k))).length) :
    dlookup k (parse_parameters s) =
      (((tokenPairs (splitOnChar ',' s)).filter (fun p => decide (p.1 = k))).getLast?).map Prod.snd
    ∧ parse_parameter_string s = parse_parameters s := by
  constructor
  · have hbind : dlookup k (parse_parameters s) =
        lastValueFor k (tokenPairs (splitOnChar ',' s)) := by
      unfold parse_parameters
      rw [parseParamsTokens_eq, dlookup_foldl_dinsert]
      cases lastValueFor k (tokenPairs (splitOnChar ',' s)) <;> rfl
    rw [hbind, lastValueFor_eq_getLast]
  · have hs1 : s ≠ lit "-" := by
      intro he
      rw [he] at h2
      have hval : tokenPairs (splitOnChar ',' (lit "-")) = [] := by decide
      rw [hval] at h2
      simp at h2
    have hs2 : s ≠ lit "*" := by
      intro he
      rw [he] at h2
      have hval : tokenPairs (splitOnChar ',' (lit "*")) = [] := by decide
      rw [hval] at h2
      simp at h2
    unfold parse_parameter_string parse_parameters
    rw [if_neg]
    intro hc
    exact hc.elim hs1 hs2

/-- Witness for C10 at the concrete input with a duplicated key. -/
theorem duplicate_key_last_wins_witness :
    dlookup (lit "a") (parse_parameters (lit "a=1,b=3,a=2")) =
      (((tokenPairs (splitOnChar ',' (lit "a=1,b=3,a=2"))).filter
          (fun p => decide (p.1 = lit "a"))).getLast?).map Prod.snd
    ∧ parse_parameter_string (lit "a=1,b=3,a=2") = parse_parameters (lit "a=1,b=3,a=2") :=
  duplicate_key_last_wins (lit "a=1,b=3,a=2") (lit "a") (by decide)

/-! ### C5: parse after build -/

lemma cleanKeyB_spec (k : Str) (h : cleanKeyB k = true) :
    ∀ c ∈ k, isPySpace c = false ∧ c ≠ ',' ∧ c ≠ '=' := by
  intro c hc
  have hx := List.all_eq_true.mp h c hc
  simp only [Bool.and_eq_true, Bool.not_eq_true', bne_iff_ne, ne_eq] at hx
  exact ⟨hx.1.1, hx.1.2, hx.2⟩

lemma cleanValB_spec (v : Str) (h : cleanValB v = true) :
    ∀ c ∈ v, isPySpace c = false ∧ c ≠ ',' := by
  intro c hc
  have hx := List.all_eq_true.mp h c hc
  simp only [Bool.and_eq_true, Bool.not_eq_true', bne_iff_ne, ne_eq] at hx
  exact ⟨hx.1, hx.2⟩

lemma dropWhile_eq_self_of_no_space (l : Str) (h : ∀ c ∈ l, isPySpace c = false) :
    l.dropWhile isPySpace = l := by
  cases l with
  | nil => rfl
  | cons c cs =>
    have hc : isPySpace c = false := h c (List.mem_cons_self c cs)
    simp [List.dropWhile_cons, hc]

lemma pstrip_eq_self (l : Str) (h : ∀ c ∈ l, isPySpace c = false) : pstrip l = l := by
  unfold pstrip
  rw [dropWhile_eq_self_of_no_space l h,
      dropWhile_eq_self_of_no_space l.reverse (fun c hc => h c (List.mem_reverse.mp hc)),
      List.reverse_reverse]

lemma splitOnCharAux_no_sep (sep : Char) (t : Str) (h : ∀ c ∈ t, c ≠ sep) :
    ∀ (tok rest : Str),
      splitOnCharAux sep tok (t ++ rest) = splitOnCharAux sep (t.reverse ++ tok) rest := by
  induction t with
  | nil => intro tok rest; rfl
  | cons c t' ih =>
    intro tok rest
    have hc : c ≠ sep := h c (List.mem_cons_self c t')
    simp only [List.cons_append, splitOnCharAux, if_neg hc]
    show splitOnCharAux sep (c :: tok) (t' ++ rest) =
      splitOnCharAux sep ((c :: t').reverse ++ tok) rest
    rw [ih (fun x hx => h x (List.mem_cons_of_mem _ hx)) (c :: tok) rest]
    simp [List.append_assoc]

lemma splitOnChar_joinSep (sep : Char) (toks : List Str)
    (hne : toks ≠ []) (h : ∀ t ∈ toks, ∀ c ∈ t, c ≠ sep) :
    splitOnChar sep (joinSep sep toks) = toks := by
  induction toks with
  | nil => exact absurd rfl hne
  | cons t ts ih =>
    cases ts with
    | nil =>
      show splitOnCharAux sep [] (joinSep sep [t]) = [t]
      have ht := splitOnCharAux_no_sep sep t (h t (List.mem_cons_self t [])) [] []
      simp only [List.append_nil] at ht
      show splitOnCharAux sep [] t = [t]
      rw [ht]
      simp [splitOnCharAux]
    | cons t2 ts2 =>
      show splitOnCharAux sep [] (t ++ sep :: joinSep sep (t2 :: ts2)) = t :: t2 :: ts2
      rw [splitOnCharAux_no_sep sep t (h t (List.mem_cons_self t _)) [] _]
      simp only [List.append_nil, splitOnCharAux, eq_self_iff_true, if_true,
        List.reverse_reverse]
      exact congrArg (List.cons t)
        (ih (by simp) (fun x hx => h x (List.mem_cons_of_mem _ hx)))

lemma splitFirst_key (sep : Char) (kk vv : Str) (h : ∀ c ∈ kk, c ≠ sep) :
    splitFirst sep (kk ++ sep :: vv) = some (kk, vv) := by
  induction kk with
  | nil => simp [splitFirst]
  | cons c ks ih =>
    have hc : c ≠ sep := h c (List.mem_cons_self c ks)
    simp only [List.cons_append, splitFirst, if_neg hc]
    show Option.map (fun p => (c :: p.1, p.2)) (splitFirst sep (ks ++ sep :: vv)) =
      some (c :: ks, vv)
    rw [ih (fun x hx => h x (List.mem_cons_of_mem _ hx))]
    rfl

lemma build_param_pairs (m : List (Str × PValue)) :
    m.filterMap (fun kv => (pvalueKept kv.2).map (fun v => kv.1 ++ '=' :: v)) =
      (keptEntries m).map (fun p => p.1 ++ '=' :: p.2) := by
  unfold keptEntries
  induction m with
  | nil => rfl
  | cons kv m ih =>
    simp only [List.filterMap_cons]
    cases hk : pvalueKept kv.2 with
    | none => exact ih
    | some v =>
      simp only [Option.map_some', List.map_cons]
      rw [ih]

lemma dinsert_fresh (k v : Str) (d : Dict) (h : ∀ p ∈ d, p.1 ≠ k) :
    dinsert k v d = d ++ [(k, v)] := by
  induction d with
  | nil => rfl
  | cons p d ih =>
    obtain ⟨k2, v2⟩ := p
    have hk2 : k2 ≠ k := h (k2, v2) (List.mem_cons_self _ _)
    simp only [dinsert, if_neg hk2, List.cons_append]
    rw [ih (fun p hp => h p (List.mem_cons_of_mem _ hp))]

lemma foldl_dinsert_nodup (ps : List (Str × Str)) :
    ∀ d : Dict, (∀ p ∈ ps, ∀ q ∈ d, q.1 ≠ p.1) → (ps.map Prod.fst).Nodup →
      ps.foldl (fun d p => dinsert p.1 p.2 d) d = d ++ ps := by
  induction ps with
  | nil => intro d _ _; simp
  | cons p ps ih =>
    intro d hd hnd
    simp only [List.foldl_cons]
    rw [dinsert_fresh p.1 p.2 d (fun q hq => hd p (List.mem_cons_self _ _) q hq)]
    rw [ih (d ++ [p]) ?_ (List.nodup_cons.mp hnd).2]
    · rw [List.append_assoc]
      rfl
    · intro p' hp' q hq
      rcases List.mem_append.mp hq with hq | hq
      · exact hd p' (List.mem_cons_of_mem _ hp') q hq
      · have hqp : q = p := by simpa using hq
        subst hqp
        intro he
        exact (List.nodup_cons.mp hnd).1 (he ▸ List.mem_map_of_mem Prod.fst hp')

lemma keptEntries_keys_sublist (m : List (Str × PValue)) :
    ((keptEntries m).map Prod.fst).Sublist (m.map Prod.fst) := by
  unfold keptEntries
  induction m with
  | nil => exact List.nil_sublist _
  | cons kv m ih =>
    simp only [List.filterMap_cons, List.map_cons]
    cases pvalueKept kv.2 with
    | none => exact ih.cons _
    | some v =>
      simp only [Option.map_some', List.map_cons]
      exact ih.cons₂ _

lemma tokenPairs_render (ps : List (Str × Str))
    (h : ∀ p ∈ ps, cleanKeyB p.1 = true ∧ cleanValB p.2 = true) :
    tokenPairs (ps.map (fun p => p.1 ++ '=' :: p.2)) = ps := by
  induction ps with
  | nil => rfl
  | cons p ps ih =>
    obtain ⟨hk, hv⟩ := h p (List.mem_cons_self p ps)
    have hkspec := cleanKeyB_spec p.1 hk
    have hvspec := cleanValB_spec p.2 hv
    have htokns : ∀ c ∈ p.1 ++ '=' :: p.2, isPySpace c = false := by
      intro c hc
      rcases List.mem_append.mp hc with hc | hc
      · exact (hkspec c hc).1
      · rcases List.mem_cons.mp hc with hc | hc
        · subst hc; decide
        · exact (hvspec c hc).1
    unfold tokenPairs
    simp only [List.map_cons, List.filterMap_cons]
    rw [pstrip_eq_self _ htokns,
        splitFirst_key '=' p.1 p.2 (fun c hc => (hkspec c hc).2.2)]
    simp only [Option.map_some']
    rw [pstrip_eq_self _ (fun c hc => (hkspec c hc).1),
        pstrip_eq_self _ (fun c hc => (hvspec c hc).1)]
    have hps := ih (fun q hq => h q (List.mem_cons_of_mem _ hq))
    unfold tokenPairs at hps
    rw [hps]

/-- C5 counterexample: a value containing a comma breaks the claimed
round trip — building then parsing the one-entry map with value `1,B=2`
yields two bindings, not the original entry (and nothing was empty or
null, so the claimed exception does not apply). -/
theorem parse_build_claim_counterexample :
    parse_parameter_string (build_parameter_string [(lit "a", PValue.vStr (lit "1,B=2"))]) =
      [(lit "a", lit "1"), (lit "B", lit "2")]
    ∧ ([(lit "a", lit "1"), (lit "B", lit "2")] : Dict) ≠ [(lit "a", lit "1,B=2")] := by
  constructor <;> decide

/-- C5 (amended): for maps with pairwise-distinct keys whose keys contain
no whitespace, comma or equals sign and whose rendered values contain no
whitespace or comma, parsing the built string reconstructs exactly the
entries the builder keeps (entries with null or empty value dropped,
booleans rendered yes/no); and the claimed edge examples hold:
building a map with only an empty value gives the default marker, and
parsing the default marker gives the empty map. -/
theorem parse_build_roundtrip (m : List (Str × PValue))
    (hck : ∀ kv ∈ m, cleanKeyB kv.1 = true)
    (hcv : ∀ kv ∈ m, (pvalueKept kv.2).all cleanValB = true)
    (hnd : (m.map Prod.fst).Nodup) :
    parse_parameter_string (build_parameter_string m) = keptEntries m
    ∧ build_parameter_string [(lit "PortName", PValue.vStr [])] = lit "-"
    ∧ parse_parameter_string (lit "-") = [] := by
  refine ⟨?_, by decide, by decide⟩
  have hkck : ∀ p ∈ keptEntries m, cleanKeyB p.1 = true ∧ cleanValB p.2 = true := by
    intro p hp
    obtain ⟨kv, hkv, hfkv⟩ := List.mem_filterMap.mp hp
    cases hpk : pvalueKept kv.2 with
    | none => rw [hpk] at hfkv; exact Option.noConfusion hfkv
    | some v =>
      rw [hpk] at hfkv
      simp only [Option.map_some'] at hfkv
      obtain rfl : (kv.1, v) = p := Option.some.inj hfkv
      refine ⟨hck kv hkv, ?_⟩
      have hval := hcv kv hkv
      rw [hpk] at hval
      simpa [Option.all] using hval
  by_cases hkept : keptEntries m = []
  · have hbuild : build_parameter_string m = lit "-" := by
      simp only [build_parameter_string]
      split_ifs with h1 h2
      · rfl
      · rfl
      · exfalso
        apply h2
        rw [build_param_pairs, hkept]
        rfl
    rw [hbuild, hkept]
    decide
  · have hpairsne : (keptEntries m).map (fun p => p.1 ++ '=' :: p.2) ≠ [] := by
      simp [hkept]
    have hm : m ≠ [] := by
      intro he; rw [he] at hkept; exact hkept rfl
    have hbuild : build_parameter_string m =
        joinSep ',' ((keptEntries m).map (fun p => p.1 ++ '=' :: p.2)) := by
      simp only [build_parameter_string]
      rw [if_neg hm, build_param_pairs, if_neg hpairsne]
    have hmemeq : ('=' : Char) ∈
        joinSep ',' ((keptEntries m).map (fun p => p.1 ++ '=' :: p.2)) := by
      obtain ⟨p0, rest, hk0⟩ : ∃ p0 rest, keptEntries m = p0 :: rest := by
        cases hke : keptEntries m with
        | nil => exact absurd hke hkept
        | cons a l => exact ⟨a, l, rfl⟩
      rw [hk0]
      simp only [List.map_cons]
      cases rest with
      | nil =>
        show ('=' : Char) ∈ p0.1 ++ '=' :: p0.2
        exact List.mem_append_right _ (List.mem_cons_self _ _)
      | cons q qs =>
        show ('=' : Char) ∈ (p0.1 ++ '=' :: p0.2) ++ ',' :: joinSep ',' _
        exact List.mem_append_left _ (List.mem_append_right _ (List.mem_cons_self _ _))
    have hne1 : joinSep ',' ((keptEntries m).map (fun p => p.1 ++ '=' :: p.2)) ≠ lit "-" := by
      intro he; rw [he] at hmemeq; exact absurd hmemeq (by decide)
    have hne2 : joinSep ',' ((keptEntries m).map (fun p => p.1 ++ '=' :: p.2)) ≠ lit "*" := by
      intro he; rw [he] at hmemeq; exact absurd hmemeq (by decide)
    rw [hbuild]
    unfold parse_parameter_string
    rw [if_neg (fun hc => hc.elim hne1 hne2)]
    have htoksep : ∀ t ∈ (keptEntries m).map (fun p => p.1 ++ '=' :: p.2),
        ∀ c ∈ t, c ≠ ',' := by
      intro t ht c hc
      obtain ⟨p, hp, rfl⟩ := List.mem_map.mp ht
      obtain ⟨hk, hv⟩ := hkck p hp
      rcases List.mem_append.mp hc with hc | hc
      · exact ((cleanKeyB_spec _ hk) c hc).2.1
      · rcases List.mem_cons.mp hc with hc | hc
        · subst hc; decide
        · exact ((cleanValB_spec _ hv) c hc).2
    rw [splitOnChar_joinSep ',' _ hpairsne htoksep]
    rw [parseParamsTokens_eq, tokenPairs_render _ hkck]
    rw [foldl_dinsert_nodup _ []
          (fun p _ q hq => absurd hq (List.not_mem_nil q))
          (List.Nodup.sublist (keptEntries_keys_sublist m) hnd)]
    rfl

/-- Witness for C5 at a concrete clean map with a boolean, an empty-valued
entry and a null entry. -/
theorem parse_build_roundtrip_witness :
    parse_parameter_string (build_parameter_string
        [(lit "PortName", PValue.vStr (lit "COM8")), (lit "EmuBR", PValue.vBool true),
         (lit "X", PValue.vStr []), (lit "Y", PValue.vNone)]) =
      keptEntries
        [(lit "PortName", PValue.vStr (lit "COM8")), (lit "EmuBR", PValue.vBool true),
         (lit "X", PValue.vStr []), (lit "Y", PValue.vNone)]
    ∧ build_parameter_string [(lit "PortName", PValue.vStr [])] = lit "-"
    ∧ parse_parameter_string (lit "-") = [] :=
  parse_build_roundtrip
    [(lit "PortName", PValue.vStr (lit "COM8")), (lit "EmuBR", PValue.vBool true),
     (lit "X", PValue.vStr []), (lit "Y", PValue.vNone)]
    (by decide) (by decide) (by decide)

/-! ### C3: the argv handed to the process-spawn primitive -/

lemma splitWsAux_token (p : Str) (hws : ∀ c ∈ p, isPySpace c = false) :
    ∀ (tok rest : Str), (tok ≠ [] ∨ p ≠ []) →
      splitWsAux tok (p ++ ' ' :: rest) = (tok.reverse ++ p) :: splitWs rest := by
  induction p with
  | nil =>
    intro tok rest hne
    have htok : tok ≠ [] := hne.resolve_right (fun h => h rfl)
    have hsp : isPySpace ' ' = true := by decide
    show splitWsAux tok (' ' :: rest) = (tok.reverse ++ []) :: splitWs rest
    simp [splitWsAux, hsp, htok, splitWs]
  | cons c p' ih =>
    intro tok rest hne
    have hc : isPySpace c = false := hws c (List.mem_cons_self c p')
    show splitWsAux tok (c :: (p' ++ ' ' :: rest)) = (tok.reverse ++ (c :: p')) :: splitWs rest
    simp only [splitWsAux, hc, Bool.false_eq_true, if_false]
    rw [ih (fun x hx => hws x (List.mem_cons_of_mem _ hx)) (c :: tok) rest
          (Or.inl (List.cons_ne_nil c tok))]
    simp [List.append_assoc]

/-- C3 counterexample: with the default installation path (which contains
spaces), the worker's whitespace split hands the spawn primitive four
tokens, not the claimed two-token vector of path and operation word. -/
theorem worker_argv_default_path_counterexample :
    workerArgv (full_command (lit "C:\\Program Files (x86)\\com0com\\setupc.exe") (lit "list")) =
      [lit "C:\\Program", lit "Files", lit "(x86)\\com0com\\setupc.exe", lit "list"]
    ∧ workerArgv (full_command (lit "C:\\Program Files (x86)\\com0com\\setupc.exe") (lit "list")) ≠
      [lit "C:\\Program Files (x86)\\com0com\\setupc.exe", lit "list"] := by
  constructor <;> decide

/-- C3 (amended): the worker passes `subprocess.run` the whitespace split
of the concatenated string `path ++ " " ++ args` with shell interpretation
disabled, so the argv equals the executable path followed by the
operation's whitespace-delimited tokens exactly when the path is non-empty
and whitespace-free; a path or parameter containing whitespace is split
into several tokens. -/
theorem worker_argv_literal_tokens (setupc_path command : Str)
    (hne : setupc_path ≠ []) (hws : ∀ c ∈ setupc_path, isPySpace c = false) :
    workerArgv (full_command setupc_path command) = setupc_path :: splitWs command := by
  unfold workerArgv full_command splitWs
  rw [splitWsAux_token setupc_path hws [] command (Or.inr hne)]
  rfl

/-- Witness for C3 at a whitespace-free path and the install command from
the spec's end-to-end scenario. -/
theorem worker_argv_literal_tokens_witness :
    workerArgv (full_command (lit "setupc.exe") (lit "install PortName=COM8 PortName=COM9")) =
      lit "setupc.exe" :: splitWs (lit "install PortName=COM8 PortName=COM9") :=
  worker_argv_literal_tokens (lit "setupc.exe") (lit "install PortName=COM8 PortName=COM9")
    (by decide) (by decide)

/-! ### Decimal rendering versus Python `int()` -/

lemma decReprAux_fuel (n : Nat) : ∀ f1 f2, n < f1 → n < f2 →
    decReprAux f1 n = decReprAux f2 n := by
  induction n using Nat.strong_induction_on with
  | _ n ih =>
    intro f1 f2 h1 h2
    cases f1 with
    | zero => omega
    | succ f1' =>
      cases f2 with
      | zero => omega
      | succ f2' =>
        simp only [decReprAux]
        by_cases h10 : n < 10
        · simp [h10]
        · have hd : n / 10 < n := Nat.div_lt_self (by omega) (by omega)
          simp only [h10, if_false]
          rw [ih (n / 10) hd f1' f2' (by omega) (by omega)]

lemma decRepr_unfold (n : Nat) :
    decRepr n = if n < 10 then [Char.ofNat (48 + n)]
                else decRepr (n / 10) ++ [Char.ofNat (48 + n % 10)] := by
  show decReprAux (n + 1) n = _
  simp only [decReprAux]
  by_cases h : n < 10
  · simp [h]
  · have hd : n / 10 < n := Nat.div_lt_self (by omega) (by omega)
    simp only [h, if_false]
    rw [decReprAux_fuel (n / 10) n (n / 10 + 1) (by omega) (by omega)]
    rfl

lemma isDigit_digitChar (d : Nat) (h : d < 10) : isDigitC (Char.ofNat (48 + d)) = true := by
  interval_cases d <;> decide

lemma digitVal_digitChar (d : Nat) (h : d < 10) : digitVal (Char.ofNat (48 + d)) = d := by
  interval_cases d <;> decide

lemma decRepr_all_digits (n : Nat) : ∀ c ∈ decRepr n, isDigitC c = true := by
  induction n using Nat.strong_induction_on with
  | _ n ih =>
    rw [decRepr_unfold]
    by_cases h : n < 10
    · simp only [h, if_true]
      intro c hc
      simp only [List.mem_singleton] at hc
      subst hc
      exact isDigit_digitChar n h
    · simp only [h, if_false]
      intro c hc
      rcases List.mem_append.mp hc with hc | hc
      · exact ih (n / 10) (Nat.div_lt_self (by omega) (by omega)) c hc
      · simp only [List.mem_singleton] at hc
        subst hc
        exact isDigit_digitChar _ (Nat.mod_lt n (by omega))

lemma decRepr_ne_nil (n : Nat) : decRepr n ≠ [] := by
  rw [decRepr_unfold]
  by_cases h : n < 10 <;> simp [h]

lemma pyDigRun_digits (l : Str) (h : ∀ c ∈ l, isDigitC c = true) :
    ∀ acc, pyDigRun acc l = some (l.foldl (fun a c => 10 * a + digitVal c) acc) := by
  induction l with
  | nil => intro acc; rfl
  | cons c cs ih =>
    intro acc
    have hc : isDigitC c = true := h c (List.mem_cons_self c cs)
    have hstep : pyDigRun acc (c :: cs) = pyDigRun (10 * acc + digitVal c) cs := by
      rw [pyDigRun.eq_def]
      simp only [hc, if_true]
    rw [hstep, List.foldl_cons]
    exact ih (fun x hx => h x (List.mem_cons_of_mem _ hx)) _

lemma foldl_digits_decRepr (n : Nat) :
    (decRepr n).foldl (fun a c => 10 * a + digitVal c) 0 = n := by
  induction n using Nat.strong_induction_on with
  | _ n ih =>
    rw [decRepr_unfold]
    by_cases h : n < 10
    · simp only [h, if_true, List.foldl_cons, List.foldl_nil]
      rw [digitVal_digitChar n h]
      omega
    · have hd : n / 10 < n := Nat.div_lt_self (by omega) (by omega)
      simp only [h, if_false, List.foldl_append, List.foldl_cons, List.foldl_nil]
      rw [ih (n / 10) hd, digitVal_digitChar _ (Nat.mod_lt n (by omega))]
      omega

lemma isDigit_not_space (c : Char) (h : isDigitC c = true) : isPySpace c = false := by
  cases hc : isPySpace c
  · rfl
  · exfalso
    unfold isPySpace at hc
    have hp := of_decide_eq_true hc
    rcases hp with h1 | h1 | h1 | h1 | h1 | h1 <;> subst h1 <;> exact absurd h (by decide)

lemma isDigit_ne_plus (c : Char) (h : isDigitC c = true) : c ≠ '+' :=
  fun he => absurd h (by rw [he]; decide)

lemma isDigit_ne_minus (c : Char) (h : isDigitC c = true) : c ≠ '-' :=
  fun he => absurd h (by rw [he]; decide)

lemma pyInt_decRepr (n : Nat) : pyInt (decRepr n) = some (Int.ofNat n) := by
  have hdig := decRepr_all_digits n
  have hstrip : pstrip (decRepr n) = decRepr n :=
    pstrip_eq_self _ (fun c hc => isDigit_not_space c (hdig c hc))
  unfold pyInt
  rw [hstrip]
  cases hd : decRepr n with
  | nil => exact absurd hd (decRepr_ne_nil n)
  | cons c cs =>
    have hdig' : ∀ x ∈ c :: cs, isDigitC x = true := by rw [← hd]; exact hdig
    have hfold : (c :: cs).foldl (fun a x => 10 * a + digitVal x) 0 = n := by
      rw [← hd]; exact foldl_digits_decRepr n
    have hc := hdig' c (List.mem_cons_self c cs)
    rw [if_neg (by simp : ¬ (c :: cs : Str) = [])]
    rw [if_neg (by simp [isDigit_ne_plus c hc] : ¬ (c :: cs : Str).head? = some '+')]
    rw [if_neg (by simp [isDigit_ne_minus c hc] : ¬ (c :: cs : Str).head? = some '-')]
    simp only [pyIntCore, hc, if_true]
    rw [pyDigRun_digits cs (fun x hx => hdig' x (List.mem_cons_of_mem _ hx)) (digitVal c)]
    simp only [List.foldl_cons, Nat.mul_zero, Nat.zero_add] at hfold
    rw [Option.map_some']
    rw [hfold]

lemma intRepr_ofNat (n : Nat) : intRepr (Int.ofNat n) = decRepr n := rfl

/-! ### C2: totality of the port list parser -/

lemma foldlM_except_ok {σ ι : Type} (step : σ → ι → Except Str σ) (P : σ → Prop)
    (Q : ι → Prop)
    (hstep : ∀ a x, P a → Q x → ∃ a', step a x = .ok a' ∧ P a') :
    ∀ (l : List ι) (a : σ), P a → (∀ x ∈ l, Q x) →
      ∃ a', l.foldlM step a = .ok a' ∧ P a' := by
  intro l
  induction l with
  | nil => intro a ha _; exact ⟨a, rfl, ha⟩
  | cons x l ih =>
    intro a ha hq
    obtain ⟨a1, hstep1, hP1⟩ := hstep a x ha (hq x (List.mem_cons_self x l))
    obtain ⟨a2, hfold, hP2⟩ := ih a1 hP1 (fun y hy => hq y (List.mem_cons_of_mem _ hy))
    refine ⟨a2, ?_, hP2⟩
    rw [List.foldlM_cons, hstep1]
    exact hfold

lemma updateFirst_forall {α : Type} (P : α → Prop) (p : α → Bool) (f : α → α)
    (l : List α) (hl : ∀ x ∈ l, P x) (hf : ∀ x, p x = true → P x → P (f x)) :
    ∀ x ∈ updateFirst p f l, P x := by
  induction l with
  | nil => intro x hx; exact absurd hx (List.not_mem_nil x)
  | cons y l ih =>
    intro x hx
    unfold updateFirst at hx
    by_cases hp : p y = true
    · rw [if_pos hp] at hx
      rcases List.mem_cons.mp hx with hx | hx
      · rw [hx]; exact hf y hp (hl y (List.mem_cons_self y l))
      · exact hl x (List.mem_cons_of_mem _ hx)
    · rw [if_neg hp] at hx
      rcases List.mem_cons.mp hx with hx | hx
      · rw [hx]; exact hl y (List.mem_cons_self y l)
      · exact ih (fun z hz => hl z (List.mem_cons_of_mem _ hz)) x hx

lemma mem_insertSorted (x y : PortPair) (l : List PortPair) (h : y ∈ insertSorted x l) :
    y = x ∨ y ∈ l := by
  induction l with
  | nil => simpa [insertSorted] using h
  | cons z l ih =>
    unfold insertSorted at h
    by_cases hc : x.number ≤ z.number
    · rw [if_pos hc] at h
      rcases List.mem_cons.mp h with h | h
      · exact Or.inl h
      · exact Or.inr h
    · rw [if_neg hc] at h
      rcases List.mem_cons.mp h with h | h
      · exact Or.inr (h ▸ List.mem_cons_self z l)
      · rcases ih h with h | h
        · exact Or.inl h
        · exact Or.inr (List.mem_cons_of_mem _ h)

lemma mem_sortPairs (y : PortPair) (l : List PortPair) : y ∈ sortPairs l → y ∈ l := by
  unfold sortPairs
  induction l with
  | nil => intro h; simp at h
  | cons x l ih =>
    intro h
    simp only [List.foldr_cons] at h
    rcases mem_insertSorted x y _ h with h | h
    · exact h ▸ List.mem_cons_self x l
    · exact List.mem_cons_of_mem _ (ih h)

lemma pyInt_nil : pyInt ([] : Str) = none := rfl

lemma parsePortLine_ok (pairs : List PortPair) (line : Str) (hq : lineIntParsable line) :
    ∃ pairs', parsePortLine pairs line = .ok pairs' := by
  simp only [parsePortLine]
  split
  · exact ⟨pairs, rfl⟩
  · split
    · rename_i hnil hpfx
      split
      · exact ⟨pairs, rfl⟩
      · rename_i port_id restToks hsplit
        obtain ⟨t, rest, hsplit2, hsome⟩ := hq hpfx
        rw [hsplit] at hsplit2
        obtain ⟨rfl, rfl⟩ : port_id = t ∧ restToks = rest := ⟨
          (List.cons.inj hsplit2).1, (List.cons.inj hsplit2).2⟩
        split
        · rename_i hnone
          rw [hnone] at hsome
          exact Bool.noConfusion hsome
        · rename_i n hn
          split
          · rename_i hdrop3
            exfalso
            have h4 : port_id.drop 4 = [] := by
              have hdd : port_id.drop 4 = (port_id.drop 3).drop 1 := by
                rw [List.drop_drop]
              rw [hdd, hdrop3]
              rfl
            rw [h4, pyInt_nil] at hn
            exact Option.noConfusion hn
          · exact ⟨_, rfl⟩
    · exact ⟨pairs, rfl⟩

/-- C2 counterexample: on the input consisting of the single line `CNCA`
the parser raises (models the uncaught `ValueError` from `int("")`) instead
of skipping the malformed line. -/
theorem parse_port_list_claim_counterexample :
    exceptIsOk (parse_port_list (lit "CNCA")) = false := by decide

/-- C2 (amended): the parser never raises on lines that do not start with
`CNC` (they are skipped), and returns a list for every input whose
`CNC`-prefixed lines carry a first token whose suffix after the fourth
character is parsable by Python `int()`; a `CNC`-prefixed line without such
a suffix (e.g. `CNC`, `CNCA`, `CNCAxy`) makes the parser raise instead of
being skipped. -/
theorem parse_port_list_total_on_parsable (output : Str)
    (h : ∀ line ∈ splitOnChar '\n' (pstrip output), lineIntParsable line) :
    ∃ pairs, parse_port_list output = .ok pairs := by
  unfold parse_port_list
  obtain ⟨acc, hfold, -⟩ :=
    foldlM_except_ok parsePortLine (fun _ => True) lineIntParsable
      (fun a x _ hx => (parsePortLine_ok a x hx).imp (fun a' ha' => ⟨ha', trivial⟩))
      (splitOnChar '\n' (pstrip output)) [] trivial h
  rw [hfold]
  exact ⟨sortPairs acc, rfl⟩

/-- Witness for C2: a concrete output with two port records and one
unrecognized line parses without raising. -/
theorem parse_port_list_total_on_parsable_witness :
    ∃ pairs, parse_port_list
      (lit "CNCA0 PortName=COM8,EmuBR=yes\nCNCB0 PortName=COM9\ngarbage line") = .ok pairs :=
  parse_port_list_total_on_parsable
    (lit "CNCA0 PortName=COM8,EmuBR=yes\nCNCB0 PortName=COM9\ngarbage line")
    (by
      intro line hl
      fin_cases hl
      · intro _
        exact ⟨lit "CNCA0", [lit "PortName=COM8,EmuBR=yes"], by decide, by decide⟩
      · intro _
        exact ⟨lit "CNCB0", [lit "PortName=COM9"], by decide, by decide⟩
      · intro hpfx
        exact absurd hpfx (by decide))

/-! ### C4: the identifier invariant of parsed pairs -/

lemma portFromLine_identifier (p : Port) (pid : Str) (rt : List Str) :
    (portFromLine p pid rt).identifier = pid := by
  simp only [portFromLine]
  split
  · split <;> rfl
  · rfl

lemma newPairFor_inv (n : Int) : pairInv (newPairFor n) := ⟨rfl, rfl⟩

lemma pairFromLine_inv (pt : Char) (pid : Str) (rt : List Str) (pp : PortPair) (n : Int)
    (hnum : pp.number = n) (hinv : pairInv pp)
    (hpid : (pt = 'A' ∧ pid = lit "CNCA" ++ intRepr n)
          ∨ (pt ≠ 'A' ∧ pid = lit "CNCB" ++ intRepr n)) :
    pairInv (pairFromLine pt pid rt pp) := by
  unfold pairFromLine
  rcases hpid with ⟨hpt, hpid⟩ | ⟨hpt, hpid⟩
  · rw [if_pos hpt]
    constructor
    · show (portFromLine pp.port_a pid rt).identifier = lit "CNCA" ++ intRepr pp.number
      rw [portFromLine_identifier, hpid, hnum]
    · exact hinv.2
  · rw [if_neg hpt]
    constructor
    · exact hinv.1
    · show (portFromLine pp.port_b pid rt).identifier = lit "CNCB" ++ intRepr pp.number
      rw [portFromLine_identifier, hpid, hnum]

lemma goodTok_drop4_A (n : Nat) : (lit "CNCA" ++ decRepr n).drop 4 = decRepr n := rfl

lemma goodTok_drop4_B (n : Nat) : (lit "CNCB" ++ decRepr n).drop 4 = decRepr n := rfl

lemma goodTok_drop3_A (n : Nat) : (lit "CNCA" ++ decRepr n).drop 3 = 'A' :: decRepr n := rfl

lemma goodTok_drop3_B (n : Nat) : (lit "CNCB" ++ decRepr n).drop 3 = 'B' :: decRepr n := rfl

lemma parsePortLine_inv (pairs : List PortPair) (line : Str)
    (hq : lineCanonical line) (hinv : ∀ pp ∈ pairs, pairInv pp) :
    ∃ pairs', parsePortLine pairs line = .ok pairs' ∧ ∀ pp ∈ pairs', pairInv pp := by
  simp only [parsePortLine]
  split
  · exact ⟨pairs, rfl, hinv⟩
  · split
    · rename_i hnil hpfx
      split
      · exact ⟨pairs, rfl, hinv⟩
      · rename_i port_id restToks hsplit
        obtain ⟨t, rest, hsplit2, hgood⟩ := hq hpfx
        rw [hsplit] at hsplit2
        obtain ⟨rfl, rfl⟩ : port_id = t ∧ restToks = rest :=
          ⟨(List.cons.inj hsplit2).1, (List.cons.inj hsplit2).2⟩
        obtain ⟨n, hcase⟩ := hgood
        have hpy : pyInt (port_id.drop 4) = some (Int.ofNat n) := by
          rcases hcase with ht | ht <;> rw [ht]
          · rw [goodTok_drop4_A]; exact pyInt_decRepr n
          · rw [goodTok_drop4_B]; exact pyInt_decRepr n
        split
        · rename_i hnone
          rw [hnone] at hpy
          exact Option.noConfusion hpy
        · rename_i pn hpn
          have hpn' : pn = Int.ofNat n := by
            rw [hpn] at hpy
            exact Option.some.inj hpy
          split
          · rename_i hdrop3
            exfalso
            rcases hcase with ht | ht <;> rw [ht] at hdrop3
            · rw [goodTok_drop3_A] at hdrop3; exact List.noConfusion hdrop3
            · rw [goodTok_drop3_B] at hdrop3; exact List.noConfusion hdrop3
          · rename_i pt rest3 hdrop3
            refine ⟨_, rfl, ?_⟩
            have hptpid : (pt = 'A' ∧ port_id = lit "CNCA" ++ intRepr pn)
                ∨ (pt ≠ 'A' ∧ port_id = lit "CNCB" ++ intRepr pn) := by
              rcases hcase with ht | ht
              · left
                constructor
                · rw [ht, goodTok_drop3_A] at hdrop3
                  exact (List.cons.inj hdrop3).1.symm
                · rw [ht, hpn', intRepr_ofNat]
              · right
                constructor
                · rw [ht, goodTok_drop3_B] at hdrop3
                  intro he
                  have hBA : ('B' : Char) = pt := (List.cons.inj hdrop3).1
                  rw [he] at hBA
                  exact absurd hBA (by decide)
                · rw [ht, hpn', intRepr_ofNat]
            apply updateFirst_forall pairInv _ _ _ ?_ ?_
            · split
              · exact hinv
              · intro x hx
                rcases List.mem_append.mp hx with hx | hx
                · exact hinv x hx
                · simp only [List.mem_singleton] at hx
                  rw [hx]
                  exact newPairFor_inv pn
            · intro x hbeq hpx
              have hxnum : x.number = pn := by simpa using hbeq
              exact pairFromLine_inv pt port_id restToks x pn hxnum hpx hptpid
    · exact ⟨pairs, rfl, hinv⟩

/-- C4 counterexample: on the accepted input `CNCA05` the parser produces a
pair numbered 5 whose side-A identifier is the raw token `CNCA05`, not
`CNCA5`, violating the claimed invariant. -/
theorem parser_identifier_claim_counterexample :
    parsedPairsInv (parse_port_list (lit "CNCA05")) = false := by decide

/-- C4 (amended): every `PortPair` produced by the parser satisfies the
identifier invariant provided every `CNC`-prefixed line's first token is
`CNCA` or `CNCB` followed by the canonical decimal rendering of a natural
number; in general the parser copies the raw token into the identifier, so
non-canonical tokens (leading zeros as in `CNCA05`, or a third letter as in
`CNCC5`) yield pairs that violate the invariant. -/
theorem parser_identifier_invariant (output : Str)
    (h : ∀ line ∈ splitOnChar '\n' (pstrip output), lineCanonical line) :
    ∃ pairs, parse_port_list output = .ok pairs ∧ ∀ pp ∈ pairs, pairInv pp := by
  unfold parse_port_list
  obtain ⟨acc, hfold, hP⟩ :=
    foldlM_except_ok parsePortLine (fun l => ∀ pp ∈ l, pairInv pp) lineCanonical
      (fun a x ha hx => parsePortLine_inv a x hx ha)
      (splitOnChar '\n' (pstrip output)) []
      (fun pp hpp => absurd hpp (List.not_mem_nil pp)) h
  rw [hfold]
  exact ⟨sortPairs acc, rfl, fun pp hpp => hP pp (mem_sortPairs pp acc hpp)⟩

/-- Witness for C4 at the two-line canonical listing from the spec example. -/
theorem parser_identifier_invariant_witness :
    ∃ pairs, parse_port_list (lit "CNCA0 PortName=COM8\nCNCB0 PortName=COM9") = .ok pairs
      ∧ ∀ pp ∈ pairs, pairInv pp :=
  parser_identifier_invariant (lit "CNCA0 PortName=COM8\nCNCB0 PortName=COM9")
    (by
      intro line hl
      fin_cases hl
      · intro _
        exact ⟨lit "CNCA0", [lit "PortName=COM8"], by decide, 0, Or.inl (by decide)⟩
      · intro _
        exact ⟨lit "CNCB0", [lit "PortName=COM9"], by decide, 0, Or.inr (by decide)⟩)

end VPM
